import Mathlib

/-!
Shallow embedding of the document-reconstruction pipeline of the
ff-services-pymupdf repository: the result assembler (overlap filtering,
content-block sequencing), the role detector, the HTML converter and the
page-range parser, together with theorems settling the specification
claims about them.

Numbers: Python floats carrying page coordinates and font sizes are
modelled as exact rationals (ℚ); page numbers as integers.  Python `None`
and missing dict keys are modelled with `Option`; a bounding box that is
absent or an empty dict (both falsy in the source) is `none`.
-/

/-- Axis-aligned bounding box, `src/converters` coordinate records. -/
structure BBox where
  x_min : ℚ
  y_min : ℚ
  x_max : ℚ
  y_max : ℚ
deriving DecidableEq, Repr

/-- Font metadata attached to a paragraph; every field may be absent,
mirroring `font.get(...)` accesses in `role_detector.py`. -/
structure Font where
  name : Option String := none
  size : Option ℚ := none
  bold : Option Bool := none
deriving DecidableEq, Repr

/-- Paragraph record as produced by extraction and consumed by
`ResultAssembler` / `RoleDetector` / `HtmlConverter`. -/
structure Paragraph where
  id : String
  content : String
  page_number : Option ℤ := none
  bounding_box : Option BBox := none
  font : Option Font := none
  role : Option String := none
deriving DecidableEq, Repr

/-- Table cell record (`row_span` / `column_span` / `kind` accessed with
`.get`, hence optional). -/
structure Cell where
  row_index : Nat
  column_index : Nat
  row_span : Option Nat := none
  column_span : Option Nat := none
  content : String
  kind : Option String := none
deriving DecidableEq, Repr

/-- Table record; `columns` is read with `table.get("columns", 0)` and the
`rows` field is part of the data model even though the HTML renderer never
reads it. -/
structure Table where
  id : String
  page_number : Option ℤ := none
  rows : Option Nat := none
  columns : Option Nat := none
  cells : List Cell := []
  bounding_box : Option BBox := none
deriving DecidableEq, Repr

/-- Image record; `data` is the base64 payload (`img.get("data")`). -/
structure Image where
  id : String
  page_number : Option ℤ := none
  mime_type : Option String := none
  data : Option String := none
  bounding_box : Option BBox := none
deriving DecidableEq, Repr

/-- Positional content block built by `ResultAssembler.assemble`. -/
structure ContentBlock where
  type : String
  page : ℤ
  y_position : ℚ
  content_id : String
deriving DecidableEq, Repr

/-- The assembled `DocumentAnalysisResult` dict returned by
`ResultAssembler.assemble`. -/
structure DocumentResult where
  model_used : String
  pages : ℤ
  paragraphs : List Paragraph
  tables : List Table
  images : List Image
  full_text : String
  content_blocks : List ContentBlock
deriving DecidableEq, Repr

/-- Python's built-in binary `max` on two numbers (returns the second
argument only when it is strictly larger). -/
def pyMax (a b : ℚ) : ℚ := if a < b then b else a

/-- Python's built-in binary `min` on two numbers. -/
def pyMin (a b : ℚ) : ℚ := if b < a then b else a

theorem pyMax_eq_max (a b : ℚ) : pyMax a b = max a b := by
  unfold pyMax
  rcases le_or_lt b a with h | h
  · rw [if_neg (not_lt.mpr h), max_eq_left h]
  · rw [if_pos h, max_eq_right h.le]

theorem pyMin_eq_min (a b : ℚ) : pyMin a b = min a b := by
  unfold pyMin
  rcases le_or_lt a b with h | h
  · rw [if_neg (not_lt.mpr h), min_eq_left h]
  · rw [if_pos h, min_eq_right h.le]

/-- Embeds `ResultAssembler._overlaps_any_table`: a paragraph with a falsy
bounding box never overlaps; tables with falsy bounding boxes or a
different `page_number` are skipped; otherwise positive x- and y-overlap
is required. -/
def overlapsAnyTable (para : Paragraph) (tables : List Table) : Bool :=
  match para.bounding_box with
  | none => false
  | some pb =>
    tables.any fun t =>
      match t.bounding_box with
      | none => false
      | some tb =>
        if para.page_number ≠ t.page_number then false
        else
          let overlap_x : ℚ := pyMax 0 (pyMin pb.x_max tb.x_max - pyMax pb.x_min tb.x_min)
          let overlap_y : ℚ := pyMax 0 (pyMin pb.y_max tb.y_max - pyMax pb.y_min tb.y_min)
          decide (overlap_x > 0) && decide (overlap_y > 0)

/-- Embeds `ResultAssembler._filter_table_overlaps`: with no tables the
paragraph list is returned unchanged, otherwise paragraphs overlapping
some table are removed (the source's append loop is a filter). -/
def filterTableOverlaps (paragraphs : List Paragraph) (tables : List Table) :
    List Paragraph :=
  if tables.isEmpty then paragraphs
  else paragraphs.filter fun p => !overlapsAnyTable p tables

/-- Content block built from a retained paragraph in `assemble`. -/
def paragraphBlock (p : Paragraph) : ContentBlock :=
  { type := "paragraph"
    page := p.page_number.getD 1
    y_position := (p.bounding_box.map BBox.y_min).getD 0
    content_id := p.id }

/-- Content block built from a table in `assemble`. -/
def tableBlock (t : Table) : ContentBlock :=
  { type := "table"
    page := t.page_number.getD 1
    y_position := (t.bounding_box.map BBox.y_min).getD 0
    content_id := t.id }

/-- Content block built from an image in `assemble`. -/
def imageBlock (i : Image) : ContentBlock :=
  { type := "image"
    page := i.page_number.getD 1
    y_position := (i.bounding_box.map BBox.y_min).getD 0
    content_id := i.id }

/-- Comparison used by `content_blocks.sort(key=lambda b: (b.page, b.y_position))`:
the lexicographic order on the `(page, y_position)` key. -/
def blockLe (a b : ContentBlock) : Bool :=
  decide (a.page < b.page) ||
    (decide (a.page = b.page) && decide (a.y_position ≤ b.y_position))

/-- The unsorted append-order block list of `assemble`: retained
paragraphs, then tables, then images. -/
def appendedBlocks (paragraphs : List Paragraph) (tables : List Table)
    (images : List Image) : List ContentBlock :=
  (filterTableOverlaps paragraphs tables).map paragraphBlock ++
    tables.map tableBlock ++ images.map imageBlock

/-- Embeds `ResultAssembler.assemble` (Python `list.sort` is a stable
sort, modelled by `List.mergeSort`). -/
def assemble (paragraphs : List Paragraph) (tables : List Table)
    (images : List Image) (total_pages : ℤ) : DocumentResult :=
  let filtered := filterTableOverlaps paragraphs tables
  { model_used := "pymupdf"
    pages := total_pages
    paragraphs := filtered
    tables := tables
    images := images
    full_text := String.intercalate "\n" (filtered.map Paragraph.content)
    content_blocks := (appendedBlocks paragraphs tables images).mergeSort blockLe }

theorem blockLe_trans (a b c : ContentBlock) :
    blockLe a b → blockLe b c → blockLe a c := by
  simp only [blockLe, Bool.or_eq_true, Bool.and_eq_true, decide_eq_true_eq]
  rintro (h₁ | ⟨h₁, h₁'⟩) (h₂ | ⟨h₂, h₂'⟩)
  · exact Or.inl (h₁.trans h₂)
  · exact Or.inl (h₂ ▸ h₁)
  · exact Or.inl (h₁ ▸ h₂)
  · exact Or.inr ⟨h₁.trans h₂, h₁'.trans h₂'⟩

theorem blockLe_total (a b : ContentBlock) : blockLe a b || blockLe b a := by
  simp only [blockLe, Bool.or_eq_true, Bool.and_eq_true, decide_eq_true_eq]
  rcases lt_trichotomy a.page b.page with h | h | h
  · exact Or.inl (Or.inl h)
  · rcases le_total a.y_position b.y_position with h' | h'
    · exact Or.inl (Or.inr ⟨h, h'⟩)
    · exact Or.inr (Or.inr ⟨h.symm, h'⟩)
  · exact Or.inr (Or.inl h)

/-- C1: the content blocks of the assembled result are exactly (as a
multiset, hence with no duplication and no omission) one block per
paragraph surviving table-overlap filtering, one per table and one per
image, each carrying the element's `bounding_box.y_min` (default `0` when
the bounding box is absent) as `y_position`. -/
theorem assemble_content_blocks_perm (ps : List Paragraph) (ts : List Table)
    (is : List Image) (n : ℤ) :
    (assemble ps ts is n).content_blocks.Perm
      ((filterTableOverlaps ps ts).map (fun p =>
          { type := "paragraph", page := p.page_number.getD 1,
            y_position := (p.bounding_box.map BBox.y_min).getD 0,
            content_id := p.id }) ++
        ts.map (fun t =>
          { type := "table", page := t.page_number.getD 1,
            y_position := (t.bounding_box.map BBox.y_min).getD 0,
            content_id := t.id }) ++
        is.map (fun i =>
          { type := "image", page := i.page_number.getD 1,
            y_position := (i.bounding_box.map BBox.y_min).getD 0,
            content_id := i.id })) :=
  List.mergeSort_perm (appendedBlocks ps ts is) blockLe

theorem assemble_content_blocks_def (ps : List Paragraph) (ts : List Table)
    (is : List Image) (n : ℤ) :
    (assemble ps ts is n).content_blocks =
      (appendedBlocks ps ts is).mergeSort blockLe := rfl

/-- Stability of `List.mergeSort` phrased through `filter`: filtering by
any predicate whose selected elements are already pairwise ordered
commutes with sorting. -/
theorem mergeSort_filter_of_pairwise {α : Type} (le : α → α → Bool)
    (htrans : ∀ a b c, le a b → le b c → le a c)
    (htotal : ∀ a b, le a b || le b a)
    (l : List α) (p : α → Bool) (h : (l.filter p).Pairwise (le · ·)) :
    (l.mergeSort le).filter p = l.filter p := by
  have hsub : (l.filter p).Sublist (l.mergeSort le) :=
    List.sublist_mergeSort htrans htotal h (List.filter_sublist l)
  have hsub2 := hsub.filter p
  rw [List.filter_filter] at hsub2
  simp only [Bool.and_self] at hsub2
  have hlen : ((l.mergeSort le).filter p).length = (l.filter p).length :=
    ((List.mergeSort_perm l le).filter p).length_eq
  exact (hsub2.eq_of_length hlen.symm).symm

/-- C2: the assembled `content_blocks` are sorted by the lexicographic
`(page, y_position)` key, and the sort is stable: the blocks carrying any
fixed `(page, y_position)` key appear exactly in their append order
(retained paragraphs, then tables, then images, each in input order). -/
theorem assemble_content_blocks_sorted_stable (ps : List Paragraph)
    (ts : List Table) (is : List Image) (n : ℤ) :
    ((assemble ps ts is n).content_blocks.Pairwise fun a b =>
        a.page < b.page ∨ (a.page = b.page ∧ a.y_position ≤ b.y_position)) ∧
    ∀ (pg : ℤ) (y : ℚ),
      (assemble ps ts is n).content_blocks.filter
          (fun b => decide (b.page = pg ∧ b.y_position = y)) =
        (appendedBlocks ps ts is).filter
          (fun b => decide (b.page = pg ∧ b.y_position = y)) := by
  rw [assemble_content_blocks_def]
  constructor
  · have h := List.sorted_mergeSort blockLe_trans blockLe_total
      (appendedBlocks ps ts is)
    refine h.imp fun {a b} hab => ?_
    simpa only [blockLe, Bool.or_eq_true, Bool.and_eq_true,
      decide_eq_true_eq] using hab
  · intro pg y
    refine mergeSort_filter_of_pairwise blockLe blockLe_trans blockLe_total _ _ ?_
    refine List.pairwise_of_forall_mem_list fun a ha b hb => ?_
    rw [List.mem_filter] at ha hb
    have ha' := of_decide_eq_true ha.2
    have hb' := of_decide_eq_true hb.2
    simp only [blockLe, Bool.or_eq_true, Bool.and_eq_true, decide_eq_true_eq]
    exact Or.inr ⟨ha'.1.trans hb'.1.symm, by rw [ha'.2, hb'.2]⟩

theorem overlapsAnyTable_nil (p : Paragraph) : overlapsAnyTable p [] = false := by
  unfold overlapsAnyTable
  cases p.bounding_box <;> simp

/-- C3: `full_text` is the newline join of the contents of exactly the
paragraphs surviving table-overlap filtering, in their original input
order (the geometric sorting of content blocks plays no part). -/
theorem assemble_full_text (ps : List Paragraph) (ts : List Table)
    (is : List Image) (n : ℤ) :
    (assemble ps ts is n).full_text =
      String.intercalate "\n"
        ((ps.filter fun p => !overlapsAnyTable p ts).map Paragraph.content) := by
  show String.intercalate "\n"
      ((filterTableOverlaps ps ts).map Paragraph.content) = _
  unfold filterTableOverlaps
  split
  · next h =>
    rw [List.isEmpty_iff] at h
    subst h
    congr 1
    rw [List.filter_eq_self.mpr]
    intro p _
    simp [overlapsAnyTable_nil]
  · rfl

theorem overlapsAnyTable_iff (p : Paragraph) (pb : BBox) (ts : List Table)
    (hbb : p.bounding_box = some pb) :
    overlapsAnyTable p ts = true ↔
      ∃ t ∈ ts, ∃ tb, t.bounding_box = some tb ∧
        t.page_number = p.page_number ∧
        max 0 (min pb.x_max tb.x_max - max pb.x_min tb.x_min) > 0 ∧
        max 0 (min pb.y_max tb.y_max - max pb.y_min tb.y_min) > 0 := by
  simp only [overlapsAnyTable, pyMax_eq_max, pyMin_eq_min, hbb,
    List.any_eq_true]
  constructor
  · rintro ⟨t, ht, h⟩
    cases htb : t.bounding_box with
    | none => simp [htb] at h
    | some tb =>
      simp only [htb] at h
      by_cases hpg : p.page_number = t.page_number
      · rw [if_neg (not_not_intro hpg)] at h
        simp only [Bool.and_eq_true, decide_eq_true_eq] at h
        exact ⟨t, ht, tb, htb, hpg.symm, h.1, h.2⟩
      · rw [if_pos hpg] at h
        exact absurd h (by simp)
  · rintro ⟨t, ht, tb, htb, hpg, hx, hy⟩
    refine ⟨t, ht, ?_⟩
    simp only [htb]
    rw [if_neg (not_not_intro hpg.symm)]
    simp only [Bool.and_eq_true, decide_eq_true_eq]
    exact ⟨hx, hy⟩

/-- Scenario paragraph of the spec: bounding box `(0,0,100,20)` on page 1. -/
def scenarioParagraph : Paragraph :=
  { id := "para-0", content := "Some text", page_number := some 1,
    bounding_box := some ⟨0, 0, 100, 20⟩ }

/-- Scenario table of the spec: bounding box `(40,10,300,200)` on page 1. -/
def scenarioTablePage1 : Table :=
  { id := "table-0", page_number := some 1,
    bounding_box := some ⟨40, 10, 300, 200⟩ }

/-- Scenario table moved to page 2, same bounding box. -/
def scenarioTablePage2 : Table :=
  { id := "table-0", page_number := some 2,
    bounding_box := some ⟨40, 10, 300, 200⟩ }

theorem scenario_overlaps_page1 :
    overlapsAnyTable scenarioParagraph [scenarioTablePage1] = true := by
  norm_num [overlapsAnyTable, scenarioParagraph, scenarioTablePage1,
    pyMax, pyMin]

theorem scenario_no_overlap_page2 :
    overlapsAnyTable scenarioParagraph [scenarioTablePage2] = false := by
  simp [overlapsAnyTable, scenarioParagraph, scenarioTablePage2]

/-- C5: a paragraph (with a bounding box) is dropped by the overlap filter
iff some table on its page has positive x- and y-overlap with it; the
filter is order-preserving on paragraphs; `assemble` never removes tables
or images; and the spec scenario: the `(0,0,100,20)` page-1 paragraph is
dropped when the `(40,10,300,200)` table is on page 1 and retained when
that table is on page 2. -/
theorem overlap_filter_drops_iff (ps : List Paragraph) (ts : List Table)
    (is : List Image) (n : ℤ) (p : Paragraph) (pb : BBox)
    (hmem : p ∈ ps) (hbb : p.bounding_box = some pb) :
    (p ∉ filterTableOverlaps ps ts ↔
      ∃ t ∈ ts, ∃ tb, t.bounding_box = some tb ∧
        t.page_number = p.page_number ∧
        max 0 (min pb.x_max tb.x_max - max pb.x_min tb.x_min) > 0 ∧
        max 0 (min pb.y_max tb.y_max - max pb.y_min tb.y_min) > 0) ∧
    (filterTableOverlaps ps ts).Sublist ps ∧
    (assemble ps ts is n).tables = ts ∧
    (assemble ps ts is n).images = is ∧
    scenarioParagraph ∉
      filterTableOverlaps [scenarioParagraph] [scenarioTablePage1] ∧
    scenarioParagraph ∈
      filterTableOverlaps [scenarioParagraph] [scenarioTablePage2] := by
  refine ⟨?_, ?_, rfl, rfl,
    by simp [filterTableOverlaps, List.mem_filter, scenario_overlaps_page1],
    by simp [filterTableOverlaps, List.mem_filter, scenario_no_overlap_page2]⟩
  · rw [← overlapsAnyTable_iff p pb ts hbb]
    unfold filterTableOverlaps
    split
    · next h =>
      rw [List.isEmpty_iff] at h
      subst h
      simp [hmem, overlapsAnyTable_nil]
    · simp [List.mem_filter, hmem]
  · unfold filterTableOverlaps
    split
    · exact List.Sublist.refl ps
    · exact List.filter_sublist ps

/-- Witness instantiating `overlap_filter_drops_iff` at the spec scenario. -/
theorem overlap_filter_drops_iff_witness :
    (scenarioParagraph ∉
        filterTableOverlaps [scenarioParagraph] [scenarioTablePage1] ↔
      ∃ t ∈ [scenarioTablePage1], ∃ tb, t.bounding_box = some tb ∧
        t.page_number = scenarioParagraph.page_number ∧
        max 0 (min (100 : ℚ) tb.x_max - max 0 tb.x_min) > 0 ∧
        max 0 (min (20 : ℚ) tb.y_max - max 0 tb.y_min) > 0) ∧
    (filterTableOverlaps [scenarioParagraph] [scenarioTablePage1]).Sublist
      [scenarioParagraph] ∧
    (assemble [scenarioParagraph] [scenarioTablePage1] [] 1).tables =
      [scenarioTablePage1] ∧
    (assemble [scenarioParagraph] [scenarioTablePage1] [] 1).images = [] ∧
    scenarioParagraph ∉
      filterTableOverlaps [scenarioParagraph] [scenarioTablePage1] ∧
    scenarioParagraph ∈
      filterTableOverlaps [scenarioParagraph] [scenarioTablePage2] :=
  overlap_filter_drops_iff [scenarioParagraph] [scenarioTablePage1] [] 1
    scenarioParagraph ⟨0, 0, 100, 20⟩ (List.mem_singleton.mpr rfl) rfl

theorem overlapsAnyTable_of_bbox_none (p : Paragraph) (ts : List Table)
    (h : p.bounding_box = none) : overlapsAnyTable p ts = false := by
  unfold overlapsAnyTable
  rw [h]

/-- C10: paragraphs with an absent (or empty, hence falsy) bounding box
are always retained by the overlap filter; a table with an absent
bounding box never causes any paragraph to be dropped (removing it from
the table list changes nothing); and with no tables the paragraph list is
returned unchanged. -/
theorem overlap_filter_missing_bbox (ps : List Paragraph) (ts : List Table)
    (p : Paragraph) (t : Table) :
    (p.bounding_box = none → p ∈ ps → p ∈ filterTableOverlaps ps ts) ∧
    (t.bounding_box = none → ∀ q : Paragraph,
      overlapsAnyTable q (t :: ts) = overlapsAnyTable q ts) ∧
    filterTableOverlaps ps [] = ps := by
  refine ⟨fun hb hmem => ?_, fun ht q => ?_, rfl⟩
  · unfold filterTableOverlaps
    split
    · exact hmem
    · rw [List.mem_filter]
      exact ⟨hmem, by simp [overlapsAnyTable_of_bbox_none p ts hb]⟩
  · cases hq : q.bounding_box with
    | none => simp [overlapsAnyTable, hq]
    | some pb =>
      simp only [overlapsAnyTable, hq, List.any_cons, ht, Bool.false_or]

/-- Witness instantiating `overlap_filter_missing_bbox`: a paragraph with
no bounding box is retained even though a table sits on its page, and a
table with no bounding box filters nothing. -/
theorem overlap_filter_missing_bbox_witness :
    (({ id := "para-0", content := "Text", page_number := some 1 } : Paragraph) ∈
      filterTableOverlaps
        [{ id := "para-0", content := "Text", page_number := some 1 }]
        [scenarioTablePage1]) ∧
    (∀ q : Paragraph,
      overlapsAnyTable q [{ id := "table-9", page_number := some 1 }] =
        overlapsAnyTable q []) ∧
    filterTableOverlaps
      [{ id := "para-0", content := "Text", page_number := some 1 }] [] =
      [{ id := "para-0", content := "Text", page_number := some 1 }] := by
  have h := overlap_filter_missing_bbox
    [{ id := "para-0", content := "Text", page_number := some 1 }]
    ([] : List Table)
    { id := "para-0", content := "Text", page_number := some 1 }
    { id := "table-9", page_number := some 1 }
  exact ⟨(overlap_filter_missing_bbox
      [{ id := "para-0", content := "Text", page_number := some 1 }]
      [scenarioTablePage1]
      { id := "para-0", content := "Text", page_number := some 1 }
      { id := "table-9", page_number := some 1 }).1 rfl (by decide),
    fun q => (h.2.1 rfl q), h.2.2⟩

/-- Python's built-in binary `min` on natural numbers (used for the
content-length weight `min(len(content), 200)`). -/
def pyMinNat (a b : ℕ) : ℕ := if b < a then b else a

theorem pyMinNat_eq_min (a b : ℕ) : pyMinNat a b = min a b := by
  unfold pyMinNat
  rcases le_or_lt a b with h | h
  · rw [if_neg (not_lt.mpr h), min_eq_left h]
  · rw [if_pos h, min_eq_right h.le]

/-- Python's round-half-to-even on an exact rational (the behaviour of
`round` on the numbers that arise here; binary floating point is modelled
by exact rational arithmetic throughout). -/
def roundHalfEven (q : ℚ) : ℤ :=
  if q - ⌊q⌋ < 1 / 2 then ⌊q⌋
  else if q - ⌊q⌋ > 1 / 2 then ⌊q⌋ + 1
  else if ⌊q⌋ % 2 = 0 then ⌊q⌋ else ⌊q⌋ + 1

/-- Models Python `round(size, 1)`: round half to even at one decimal. -/
def roundTo1 (q : ℚ) : ℚ := (roundHalfEven (10 * q) : ℚ) / 10

/-- The weighted font-size list built by
`RoleDetector._detect_body_font_size`: each paragraph contributes
`min(len(content), 200)` copies of its font size rounded to one decimal
(size defaulting to `12.0` when absent). -/
def weightedSizes (paragraphs : List Paragraph) : List ℚ :=
  paragraphs.flatMap fun para =>
    List.replicate (pyMinNat para.content.length 200)
      (roundTo1 ((para.font.getD {}).size.getD 12))

/-- One step of the maximum-multiplicity scan modelling
`Counter(sizes).most_common(1)`: the candidate is replaced only on a
strictly larger count, so ties go to the earliest occurrence, matching
CPython's insertion-ordered `Counter` and stable `nlargest`. -/
def stepMC (l : List ℚ) (acc : Option (ℚ × ℕ)) (x : ℚ) : Option (ℚ × ℕ) :=
  match acc with
  | none => some (x, l.count x)
  | some p => if l.count x > p.2 then some (x, l.count x) else acc

/-- Models `Counter(sizes).most_common(1)[0][0]` (the `12` fallback is
unreachable: the caller only uses this on a non-empty list). -/
def mostCommon (l : List ℚ) : ℚ :=
  match l.foldl (stepMC l) none with
  | some p => p.1
  | none => 12

/-- Embeds `RoleDetector._detect_body_font_size`. -/
def detectBodyFontSize (paragraphs : List Paragraph) : ℚ :=
  if (weightedSizes paragraphs).isEmpty then 12
  else mostCommon (weightedSizes paragraphs)

/-- Embeds `RoleDetector._classify_single`: the four-rule priority
cascade (`1.5` and `1.1` denote the source's decimal literals, exact in
our rational model). -/
def classifySingle (font_size : ℚ) (is_bold : Bool)
    (body_size title_threshold heading_threshold : ℚ) : Option String :=
  if font_size ≥ title_threshold then some "title"
  else if decide (font_size ≥ body_size * 1.5) && is_bold then some "title"
  else if font_size ≥ heading_threshold then some "sectionHeading"
  else if is_bold && decide (font_size > body_size * 1.1) then some "sectionHeading"
  else none

/-- The per-paragraph body of the loop in `RoleDetector.classify`:
read `font.size` / `font.bold` with their defaults and store the
resulting role. -/
def classifyPara (body_size title_threshold heading_threshold : ℚ)
    (para : Paragraph) : Paragraph :=
  let font := para.font.getD {}
  { para with
      role := classifySingle (font.size.getD 12) (font.bold.getD false)
                body_size title_threshold heading_threshold }

/-- Embeds `RoleDetector.classify`; the Python in-place role mutation is
modelled by returning the updated paragraph list. -/
def classify (paragraphs : List Paragraph)
    (title_threshold heading_threshold : ℚ) : List Paragraph :=
  if paragraphs.isEmpty then paragraphs
  else
    let body_size := detectBodyFontSize paragraphs
    paragraphs.map (classifyPara body_size title_threshold heading_threshold)

theorem foldl_stepMC_spec (l : List ℚ) (cands : List ℚ) :
    ∀ p : ℚ × ℕ, p.2 = l.count p.1 →
      ∃ q : ℚ × ℕ, cands.foldl (stepMC l) (some p) = some q ∧
        q.2 = l.count q.1 ∧ p.2 ≤ q.2 ∧ (q.1 = p.1 ∨ q.1 ∈ cands) ∧
        ∀ x ∈ cands, l.count x ≤ q.2 := by
  induction cands with
  | nil =>
    intro p hp
    exact ⟨p, rfl, hp, le_refl _, Or.inl rfl, by simp⟩
  | cons x rest ih =>
    intro p hp
    rw [List.foldl_cons]
    by_cases hx : l.count x > p.2
    · have hstep : stepMC l (some p) x = some (x, l.count x) := by
        simp [stepMC, hx]
      rw [hstep]
      obtain ⟨q, hq, hqc, hle, hqm, hall⟩ := ih (x, l.count x) rfl
      refine ⟨q, hq, hqc, le_trans (le_of_lt hx) hle, ?_, ?_⟩
      · rcases hqm with h | h
        · exact Or.inr (h ▸ List.mem_cons_self x rest)
        · exact Or.inr (List.mem_cons_of_mem x h)
      · intro y hy
        rcases List.mem_cons.mp hy with h | h
        · exact h ▸ hle
        · exact hall y h
    · have hstep : stepMC l (some p) x = some p := by
        simp [stepMC, hx]
      rw [hstep]
      obtain ⟨q, hq, hqc, hle, hqm, hall⟩ := ih p hp
      refine ⟨q, hq, hqc, hle, ?_, ?_⟩
      · rcases hqm with h | h
        · exact Or.inl h
        · exact Or.inr (List.mem_cons_of_mem x h)
      · intro y hy
        rcases List.mem_cons.mp hy with h | h
        · exact h ▸ le_trans (not_lt.mp hx) hle
        · exact hall y h

/-- The scan modelling `Counter.most_common(1)` returns an element of the
list achieving the maximal multiplicity. -/
theorem mostCommon_mode (l : List ℚ) (h : l ≠ []) :
    mostCommon l ∈ l ∧ ∀ x ∈ l, l.count x ≤ l.count (mostCommon l) := by
  obtain ⟨a, rest, rfl⟩ := List.exists_cons_of_ne_nil h
  unfold mostCommon
  rw [List.foldl_cons]
  have hstep : stepMC (a :: rest) none a = some (a, (a :: rest).count a) := rfl
  rw [hstep]
  obtain ⟨q, hq, hqc, hle, hqm, hall⟩ :=
    foldl_stepMC_spec (a :: rest) rest (a, (a :: rest).count a) rfl
  rw [hq]
  constructor
  · show q.1 ∈ a :: rest
    rcases hqm with h' | h'
    · exact h' ▸ List.mem_cons_self a rest
    · exact List.mem_cons_of_mem a h'
  · intro x hx
    show (a :: rest).count x ≤ (a :: rest).count q.1
    rw [← hqc]
    rcases List.mem_cons.mp hx with h' | h'
    · exact h' ▸ hle
    · exact hall x h'

theorem weightedSizes_nil_of_empty (ps : List Paragraph)
    (h : ∀ p ∈ ps, p.content = "") : weightedSizes ps = [] := by
  induction ps with
  | nil => rfl
  | cons p rest ih =>
    have hp : p.content = "" := h p (List.mem_cons_self p rest)
    have hrest := ih fun q hq => h q (List.mem_cons_of_mem p hq)
    simp only [weightedSizes, List.flatMap_cons] at hrest ⊢
    rw [hrest, hp]
    simp [pyMinNat]

/-- First scenario paragraph of the spec: size 24, bold, content `Title`. -/
def titleScenarioParagraph : Paragraph :=
  { id := "para-0", content := "Title",
    font := some { size := some 24, bold := some true } }

/-- Second scenario paragraph of the spec: size 12, `Body ` repeated 50
times (no bold flag). -/
def bodyScenarioParagraph : Paragraph :=
  { id := "para-1", content := String.join (List.replicate 50 "Body "),
    font := some { size := some 12 } }

/-- C4: the body size is the most frequent value of the weighted rounded
font-size multiset (where each paragraph contributes
`min(len(content), 200)` copies), defaulting to `12.0` when every
paragraph has empty text; each paragraph's role is then set by the
first-match priority cascade; and on the spec scenario (24-pt bold
`Title`, 12-pt `Body ` times 50) with default thresholds 18/14 the first
paragraph becomes `title` and the second gets no role. -/
theorem role_detector_spec (ps : List Paragraph) (tt hh : ℚ) :
    ((∀ p ∈ ps, p.content = "") → detectBodyFontSize ps = 12) ∧
    (weightedSizes ps ≠ [] →
      detectBodyFontSize ps ∈ weightedSizes ps ∧
      ∀ x ∈ weightedSizes ps,
        (weightedSizes ps).count x ≤
          (weightedSizes ps).count (detectBodyFontSize ps)) ∧
    (ps ≠ [] → classify ps tt hh = ps.map fun p =>
      { p with
          role := classifySingle ((p.font.getD {}).size.getD 12)
                    ((p.font.getD {}).bold.getD false) (detectBodyFontSize ps)
                    tt hh }) ∧
    classify [titleScenarioParagraph, bodyScenarioParagraph] 18 14 =
      [{ titleScenarioParagraph with role := some "title" },
        { bodyScenarioParagraph with role := none }] := by
  refine ⟨fun h => ?_, fun hne => ?_, fun hps => ?_, ?_⟩
  · rw [detectBodyFontSize, weightedSizes_nil_of_empty ps h]
    rfl
  · rw [detectBodyFontSize, if_neg (by simpa [List.isEmpty_iff] using hne)]
    exact mostCommon_mode _ hne
  · rw [classify, if_neg (by simpa [List.isEmpty_iff] using hps)]
    rfl
  · norm_num [classify, classifyPara, classifySingle, titleScenarioParagraph,
      bodyScenarioParagraph]

/-- Witness instantiating `role_detector_spec`: the empty-text default,
the mode property on a concrete non-empty paragraph list, and the
non-empty classification contract. -/
theorem role_detector_spec_witness :
    detectBodyFontSize [] = 12 ∧
    (detectBodyFontSize [titleScenarioParagraph] ∈
        weightedSizes [titleScenarioParagraph] ∧
      ∀ x ∈ weightedSizes [titleScenarioParagraph],
        (weightedSizes [titleScenarioParagraph]).count x ≤
          (weightedSizes [titleScenarioParagraph]).count
            (detectBodyFontSize [titleScenarioParagraph])) ∧
    classify [titleScenarioParagraph] 18 14 =
      [titleScenarioParagraph].map (fun p =>
        { p with
            role := classifySingle ((p.font.getD {}).size.getD 12)
                      ((p.font.getD {}).bold.getD false)
                      (detectBodyFontSize [titleScenarioParagraph]) 18 14 }) := by
  have h0 := role_detector_spec [] 18 14
  have h1 := role_detector_spec [titleScenarioParagraph] 18 14
  refine ⟨h0.1 (by simp), h1.2.1 ?_, h1.2.2.1 (by simp)⟩
  simp only [weightedSizes, titleScenarioParagraph, pyMinNat,
    List.flatMap_cons, List.flatMap_nil, List.append_nil, ne_eq]
  decide

theorem weightedSizes_map_classifyPara (b tt hh : ℚ) (ps : List Paragraph) :
    weightedSizes (ps.map (classifyPara b tt hh)) = weightedSizes ps := by
  induction ps with
  | nil => rfl
  | cons p rest ih =>
    simp only [List.map_cons, weightedSizes, List.flatMap_cons] at ih ⊢
    rw [ih]
    rfl

/-- C8: classifying a paragraph list a second time with the same
thresholds changes nothing: role assignment only rewrites `role`, which
the body-size statistics and the rule cascade never read. -/
theorem classify_idempotent (ps : List Paragraph) (tt hh : ℚ) :
    classify (classify ps tt hh) tt hh = classify ps tt hh := by
  rcases eq_or_ne ps [] with rfl | hne
  · rfl
  · have hL : classify ps tt hh =
        ps.map (classifyPara (detectBodyFontSize ps) tt hh) := by
      rw [classify, if_neg (by simpa [List.isEmpty_iff] using hne)]
    rw [hL]
    have hne' : ps.map (classifyPara (detectBodyFontSize ps) tt hh) ≠ [] := by
      simpa using hne
    rw [classify, if_neg (by simpa [List.isEmpty_iff] using hne')]
    have hb : detectBodyFontSize
        (ps.map (classifyPara (detectBodyFontSize ps) tt hh)) =
        detectBodyFontSize ps := by
      rw [detectBodyFontSize, detectBodyFontSize, weightedSizes_map_classifyPara]
    rw [hb, List.map_map]
    rfl

/-- Python `str.replace` with a single-character pattern: every
occurrence of `c` becomes the string `r` (strings are modelled as their
character lists). -/
def replaceChar (c : Char) (r : List Char) (l : List Char) : List Char :=
  l.flatMap fun x => if x = c then r else [x]

/-- Embeds `HtmlConverter._escape_html`: the five chained `replace`
calls in source order, ampersands first. -/
def escapeHtml (l : List Char) : List Char :=
  replaceChar '\'' "&#039;".data
    (replaceChar '"' "&quot;".data
      (replaceChar '>' "&gt;".data
        (replaceChar '<' "&lt;".data
          (replaceChar '&' "&amp;".data l))))

/-- Per-character escaping table: what one pass over the input does. -/
def escapeChar (c : Char) : List Char :=
  if c = '&' then "&amp;".data
  else if c = '<' then "&lt;".data
  else if c = '>' then "&gt;".data
  else if c = '"' then "&quot;".data
  else if c = '\'' then "&#039;".data
  else [c]

theorem escapeHtml_append (l₁ l₂ : List Char) :
    escapeHtml (l₁ ++ l₂) = escapeHtml l₁ ++ escapeHtml l₂ := by
  simp [escapeHtml, replaceChar, List.flatMap_append]

theorem escapeHtml_singleton (x : Char) : escapeHtml [x] = escapeChar x := by
  by_cases h1 : x = '&'
  · subst h1; rfl
  by_cases h2 : x = '<'
  · subst h2; rfl
  by_cases h3 : x = '>'
  · subst h3; rfl
  by_cases h4 : x = '"'
  · subst h4; rfl
  by_cases h5 : x = '\''
  · subst h5; rfl
  simp [escapeHtml, replaceChar, escapeChar, h1, h2, h3, h4, h5]

/-- C7: the chained substitutions (`&`, `<`, `>`, `"`, `'`, in that
order) amount to a single escaping pass: every occurrence of one of the
five characters is escaped exactly once, never re-escaped by a later
substitution, and every other character passes through unchanged; in
particular `&` becomes `&amp;`, not `&amp;amp;`. -/
theorem escape_html_single_pass (l : List Char) :
    escapeHtml l = l.flatMap escapeChar ∧
    escapeHtml ['&'] = "&amp;".data ∧
    escapeHtml "a&b<c".data = "a&amp;b&lt;c".data := by
  refine ⟨?_, rfl, rfl⟩
  induction l with
  | nil => rfl
  | cons x xs ih =>
    rw [List.flatMap_cons, ← ih,
      show (x :: xs : List Char) = [x] ++ xs from rfl, escapeHtml_append,
      escapeHtml_singleton]

/-- Python `str.split(sep)` for a single-character separator (splits at
every occurrence; the empty string splits to `[""]`). -/
def splitOnChar (sep : Char) (l : List Char) : List (List Char) :=
  l.foldr (fun c acc =>
    match acc with
    | [] => [[c]]
    | cur :: rest => if c = sep then [] :: cur :: rest else (c :: cur) :: rest)
    [[]]

/-- Python `str.strip()`: drop leading and trailing whitespace. -/
def pyStrip (l : List Char) : List Char :=
  ((l.dropWhile Char.isWhitespace).reverse.dropWhile Char.isWhitespace).reverse

/-- Digit runs in CPython integer-literal syntax: `digit (('_')? digit)*`
(single underscores allowed only between digits). -/
def underscoredDigits : List Char → Bool
  | [] => false
  | [c] => c.isDigit
  | c :: '_' :: rest => c.isDigit && underscoredDigits rest
  | c :: c2 :: rest => c.isDigit && underscoredDigits (c2 :: rest)

/-- Decimal value of a digit list. -/
def digitsValue (ds : List Char) : ℤ :=
  ds.foldl (fun acc c => 10 * acc + (c.toNat - 48)) 0

/-- Models CPython `int(str)` on ASCII decimal literals: surrounding
whitespace, an optional sign, then underscore-grouped digits; anything
else raises `ValueError`, modelled as `none`. -/
def parsePyInt (l : List Char) : Option ℤ :=
  match pyStrip l with
  | '-' :: rest =>
    if underscoredDigits rest then
      some (-digitsValue (rest.filter fun c => c != '_'))
    else none
  | '+' :: rest =>
    if underscoredDigits rest then
      some (digitsValue (rest.filter fun c => c != '_'))
    else none
  | s =>
    if underscoredDigits s then
      some (digitsValue (s.filter fun c => c != '_'))
    else none

/-- Python `part.split('-', 1)`: split at the first dash (only reached
when a dash is present). -/
def splitFirstDash : List Char → List Char × List Char
  | [] => ([], [])
  | c :: rest =>
    if c = '-' then ([], rest)
    else
      let p := splitFirstDash rest
      (c :: p.1, p.2)

/-- One iteration of the loop in `parse_page_range`
(`src/utils/page_filter.py`): the set of pages a stripped component
denotes, `none` modelling the `ValueError` raised on a malformed integer
or a reversed range. -/
def parseRangePart (rawPart : List Char) : Option (Finset ℤ) :=
  let part := pyStrip rawPart
  if part.contains '-' then
    let se := splitFirstDash part
    match parsePyInt (pyStrip se.1), parsePyInt (pyStrip se.2) with
    | some a, some b => if a > b then none else some (Finset.Icc a b)
    | _, _ => none
  else
    (parsePyInt part).map fun n => {n}

/-- Accumulation step of `parse_page_range`: an exception anywhere
(`none`) makes the whole parse fail, otherwise `pages.update(...)`. -/
def updatePages (acc : Option (Finset ℤ)) (part : List Char) :
    Option (Finset ℤ) :=
  match acc with
  | none => none
  | some pages => (parseRangePart part).map fun f => pages ∪ f

/-- Embeds `parse_page_range`: fold the components of the comma-split
input into a page set, then return `sorted(list(pages))`. -/
def parse_page_range (s : List Char) : Option (List ℤ) :=
  ((splitOnChar ',' s).foldl updatePages (some ∅)).map fun pages =>
    pages.sort (· ≤ ·)

theorem foldl_updatePages_none (parts : List (List Char)) :
    parts.foldl updatePages none = none := by
  induction parts with
  | nil => rfl
  | cons p rest ih => simpa [updatePages] using ih

theorem foldl_updatePages_eq_none_iff (parts : List (List Char)) :
    ∀ acc : Finset ℤ,
      parts.foldl updatePages (some acc) = none ↔
        ∃ p ∈ parts, parseRangePart p = none := by
  induction parts with
  | nil => intro acc; simp
  | cons p rest ih =>
    intro acc
    rw [List.foldl_cons]
    cases hp : parseRangePart p with
    | none =>
      rw [show updatePages (some acc) p = none by simp [updatePages, hp],
        foldl_updatePages_none]
      simp [hp]
    | some F =>
      rw [show updatePages (some acc) p = some (acc ∪ F) by
        simp [updatePages, hp], ih]
      simp [hp]

theorem foldl_updatePages_mem (parts : List (List Char)) :
    ∀ (acc P : Finset ℤ),
      parts.foldl updatePages (some acc) = some P →
      ∀ n : ℤ, n ∈ P ↔ n ∈ acc ∨ ∃ p ∈ parts, ∃ F,
        parseRangePart p = some F ∧ n ∈ F := by
  induction parts with
  | nil =>
    intro acc P h n
    simp only [List.foldl_nil, Option.some.injEq] at h
    subst h
    simp
  | cons p rest ih =>
    intro acc P h n
    rw [List.foldl_cons] at h
    cases hp : parseRangePart p with
    | none =>
      rw [show updatePages (some acc) p = none by simp [updatePages, hp],
        foldl_updatePages_none] at h
      exact absurd h (by simp)
    | some F =>
      rw [show updatePages (some acc) p = some (acc ∪ F) by
        simp [updatePages, hp]] at h
      rw [ih _ _ h n]
      constructor
      · rintro (h' | h')
        · rcases Finset.mem_union.mp h' with h'' | h''
          · exact Or.inl h''
          · exact Or.inr ⟨p, List.mem_cons_self p rest, F, hp, h''⟩
        · obtain ⟨q, hq, G, hG, hn⟩ := h'
          exact Or.inr ⟨q, List.mem_cons_of_mem p hq, G, hG, hn⟩
      · rintro (h' | ⟨q, hq, G, hG, hn⟩)
        · exact Or.inl (Finset.mem_union_left F h')
        · rcases List.mem_cons.mp hq with rfl | hq'
          · rw [hp] at hG
            cases hG
            exact Or.inl (Finset.mem_union_right acc hn)
          · exact Or.inr ⟨q, hq', G, hG, hn⟩

theorem finset_sort_eq_of_sorted (P : Finset ℤ) (l : List ℤ)
    (hs : l.Sorted (· < ·)) (h : l.toFinset = P) : P.sort (· ≤ ·) = l := by
  have hnd : l.Nodup := hs.nodup
  have hperm : (P.sort (· ≤ ·)).Perm l := by
    apply List.perm_of_nodup_nodup_toFinset_eq (Finset.sort_nodup _ _) hnd
    rw [Finset.sort_toFinset, h]
  exact List.eq_of_perm_of_sorted hperm (Finset.sort_sorted _ _)
    (hs.imp le_of_lt)

theorem parseRangePart_eq_none_iff (part : List Char) :
    parseRangePart part = none ↔
      ((pyStrip part).contains '-' = false ∧
        parsePyInt (pyStrip part) = none) ∨
      ((pyStrip part).contains '-' = true ∧
        (parsePyInt (pyStrip (splitFirstDash (pyStrip part)).1) = none ∨
         parsePyInt (pyStrip (splitFirstDash (pyStrip part)).2) = none ∨
         ∃ a b : ℤ,
           parsePyInt (pyStrip (splitFirstDash (pyStrip part)).1) = some a ∧
           parsePyInt (pyStrip (splitFirstDash (pyStrip part)).2) = some b ∧
           a > b)) := by
  simp only [parseRangePart]
  cases hc : (pyStrip part).contains '-' with
  | false =>
    simp only [hc, Bool.false_eq_true, if_false, Option.map_eq_none']
    simp
  | true =>
    simp only [hc, if_true]
    cases h1 : parsePyInt (pyStrip (splitFirstDash (pyStrip part)).1) with
    | none => simp [h1]
    | some a =>
      cases h2 : parsePyInt (pyStrip (splitFirstDash (pyStrip part)).2) with
      | none => simp [h1, h2]
      | some b =>
        by_cases hab : a > b
        · simp [h1, h2, hab]
        · simp [h1, h2, hab]

/-- C9: the page-range parser maps `"1,3,5-7"` to `[1,3,5,6,7]` and
rejects `"10-5"`; every successful parse is strictly increasing with no
duplicates and contains exactly the pages denoted by the components; and
it fails exactly when some comma-separated component is a malformed
integer, has a malformed range bound, or is a range with start > end. -/
theorem parse_page_range_spec (s : List Char) :
    parse_page_range "1,3,5-7".data = some [1, 3, 5, 6, 7] ∧
    parse_page_range "10-5".data = none ∧
    (∀ l, parse_page_range s = some l →
      l.Sorted (· < ·) ∧ l.Nodup ∧
      ∀ n : ℤ, n ∈ l ↔ ∃ part ∈ splitOnChar ',' s, ∃ F,
        parseRangePart part = some F ∧ n ∈ F) ∧
    (parse_page_range s = none ↔ ∃ part ∈ splitOnChar ',' s,
      ((pyStrip part).contains '-' = false ∧
        parsePyInt (pyStrip part) = none) ∨
      ((pyStrip part).contains '-' = true ∧
        (parsePyInt (pyStrip (splitFirstDash (pyStrip part)).1) = none ∨
         parsePyInt (pyStrip (splitFirstDash (pyStrip part)).2) = none ∨
         ∃ a b : ℤ,
           parsePyInt (pyStrip (splitFirstDash (pyStrip part)).1) = some a ∧
           parsePyInt (pyStrip (splitFirstDash (pyStrip part)).2) = some b ∧
           a > b))) := by
  refine ⟨?_, by decide, ?_, ?_⟩
  · have hfold : (splitOnChar ',' "1,3,5-7".data).foldl updatePages
        (some (∅ : Finset ℤ)) = some ({1, 3, 5, 6, 7} : Finset ℤ) := by
      decide
    rw [parse_page_range, hfold, Option.map_some',
      finset_sort_eq_of_sorted _ [1, 3, 5, 6, 7] (by decide) (by decide)]
  · intro l hl
    rw [parse_page_range] at hl
    cases hfold : (splitOnChar ',' s).foldl updatePages
        (some (∅ : Finset ℤ)) with
    | none => rw [hfold] at hl; exact absurd hl (by simp)
    | some P =>
      rw [hfold, Option.map_some', Option.some.injEq] at hl
      subst hl
      refine ⟨Finset.sort_sorted_lt P, Finset.sort_nodup _ P, fun n => ?_⟩
      rw [Finset.mem_sort,
        foldl_updatePages_mem (splitOnChar ',' s) ∅ P hfold n]
      simp
  · rw [parse_page_range, Option.map_eq_none',
      foldl_updatePages_eq_none_iff (splitOnChar ',' s) ∅]
    exact exists_congr fun part =>
      and_congr_right fun _ => parseRangePart_eq_none_iff part

/-- Witness instantiating `parse_page_range_spec`: the parsed list for
`"1,3,5-7"` is strictly increasing and duplicate-free. -/
theorem parse_page_range_spec_witness :
    ([1, 3, 5, 6, 7] : List ℤ).Sorted (· < ·) ∧
    ([1, 3, 5, 6, 7] : List ℤ).Nodup := by
  have h := parse_page_range_spec "1,3,5-7".data
  have hc := h.2.2.1 [1, 3, 5, 6, 7] h.1
  exact ⟨hc.1, hc.2.1⟩

/-- Rendering of one present table cell in `HtmlConverter._table_to_html`:
`th` for a `columnHeader`, span attributes only when the span exceeds 1,
content escaped like paragraph text. -/
def cellHtml (cell : Cell) : String :=
  let tag := if cell.kind == some "columnHeader" then "th" else "td"
  let colspan := if cell.column_span.getD 1 > 1 then
      " colspan=\"" ++ toString (cell.column_span.getD 1) ++ "\"" else ""
  let rowspan := if cell.row_span.getD 1 > 1 then
      " rowspan=\"" ++ toString (cell.row_span.getD 1) ++ "\"" else ""
  "<" ++ tag ++ colspan ++ rowspan ++ ">" ++
    String.mk (escapeHtml cell.content.data) ++ "</" ++ tag ++ ">"

/-- The `while len(rows) <= cell["row_index"]` growth step of
`_table_to_html`: pad with `columns`-wide all-`None` rows. -/
def growRows (columns : ℕ) (rows : List (List (Option Cell))) (n : ℕ) :
    List (List (Option Cell)) :=
  rows ++ List.replicate (n - rows.length) (List.replicate columns none)

/-- One iteration of the cell-placement loop of `_table_to_html`: grow the
grid up to the cell's row, then store the cell when its column fits. -/
def placeCell (columns : ℕ) (rows : List (List (Option Cell)))
    (cell : Cell) : List (List (Option Cell)) :=
  let grown := growRows columns rows (cell.row_index + 1)
  if cell.column_index < (grown.getD cell.row_index []).length then
    grown.set cell.row_index
      ((grown.getD cell.row_index []).set cell.column_index (some cell))
  else grown

/-- The grid built by the cell-grouping loop of `_table_to_html`. -/
def buildRows (columns : ℕ) (cells : List Cell) :
    List (List (Option Cell)) :=
  cells.foldl (placeCell columns) []

/-- Rendering of one grid row in `_table_to_html`: empty positions emit
`<td></td>`. -/
def rowHtml (row : List (Option Cell)) : String :=
  "<tr>" ++ String.join (row.map fun oc =>
    match oc with
    | none => "<td></td>"
    | some cell => cellHtml cell) ++ "</tr>"

/-- Embeds `HtmlConverter._table_to_html`. -/
def tableToHtml (t : Table) : String :=
  "<table border=\"1\" id=\"" ++ t.id ++ "\"><tbody>" ++
    String.join ((buildRows (t.columns.getD 0) t.cells).map rowHtml) ++
    "</tbody></table>"

/-- Number of grid rows the renderer actually emits: one more than the
largest cell `row_index` (`0` with no cells). -/
def tableRowsCount (cells : List Cell) : ℕ :=
  cells.foldl (fun m c => max m (c.row_index + 1)) 0

/-- The cell rendered at grid position `(r, c)`: the last cell of the
list carrying exactly that `(row_index, column_index)` (later duplicates
overwrite earlier ones). -/
def gridCellAt (cells : List Cell) (r c : ℕ) : Option Cell :=
  cells.reverse.find? fun x => x.row_index == r && x.column_index == c

/-- Renderer described by the (amended) specification: `<tbody>` holds one
`<tr>` per row index below `tableRowsCount`, each row one position per
column index below `columns`, a position with no cell emitting
`<td></td>` and a present cell rendered by `cellHtml`. -/
def tableToHtmlSpec (t : Table) : String :=
  "<table border=\"1\" id=\"" ++ t.id ++ "\"><tbody>" ++
    String.join ((List.range (tableRowsCount t.cells)).map fun r =>
      "<tr>" ++ String.join ((List.range (t.columns.getD 0)).map fun c =>
        match gridCellAt t.cells r c with
        | none => "<td></td>"
        | some cell => cellHtml cell) ++ "</tr>") ++
    "</tbody></table>"

/-- Occurrence count of a pattern in a character list. -/
def countOcc (pat : List Char) : List Char → ℕ
  | [] => 0
  | c :: rest => (if pat.isPrefixOf (c :: rest) then 1 else 0) + countOcc pat rest

/-- A table whose `rows` field (2) exceeds the rows spanned by its cells
(row indices up to 0 only). -/
def rowsFieldCounterexampleTable : Table :=
  { id := "t0", rows := some 2, columns := some 1,
    cells := [{ row_index := 0, column_index := 0, content := "a" }] }

/-- Counterexample to C6 as stated: the renderer emits one `<tr>` per
grid row derived from the cells, not per the table's `rows` field; on a
table with `rows = 2` but cells only in row 0 the output holds a single
`<tr>`. -/
theorem table_to_html_rows_counterexample :
    rowsFieldCounterexampleTable.rows = some 2 ∧
    countOcc "<tr>".data
      (tableToHtml rowsFieldCounterexampleTable).data = 1 ∧
    tableToHtml rowsFieldCounterexampleTable =
      "<table border=\"1\" id=\"t0\"><tbody><tr><td>a</td></tr></tbody></table>" := by
  exact ⟨rfl, by decide, by decide⟩

/-- Grid access used to analyse the renderer: out-of-range rows and
columns read as empty positions. -/
def gridGet (g : List (List (Option Cell))) (r c : ℕ) : Option Cell :=
  ((g[r]?.getD [])[c]?).getD none

theorem growRows_length (cols : ℕ) (rows : List (List (Option Cell)))
    (n : ℕ) : (growRows cols rows n).length = max rows.length n := by
  simp only [growRows, List.length_append, List.length_replicate]
  omega

theorem growRows_forall_length (cols : ℕ)
    (rows : List (List (Option Cell))) (n : ℕ)
    (hacc : ∀ row ∈ rows, row.length = cols) :
    ∀ row ∈ growRows cols rows n, row.length = cols := by
  intro row hrow
  rcases List.mem_append.mp hrow with h | h
  · exact hacc row h
  · rw [List.eq_of_mem_replicate h]
    exact List.length_replicate _ _

theorem gridGet_growRows (cols : ℕ) (rows : List (List (Option Cell)))
    (n r c : ℕ) : gridGet (growRows cols rows n) r c = gridGet rows r c := by
  unfold gridGet growRows
  by_cases hr : r < rows.length
  · rw [List.getElem?_append_left hr]
  · rw [List.getElem?_append_right (Nat.le_of_not_lt hr),
      List.getElem?_eq_none (Nat.le_of_not_lt hr), List.getElem?_replicate]
    by_cases h2 : r - rows.length < n - rows.length
    · rw [if_pos h2]
      by_cases hc : c < cols <;> simp [List.getElem?_replicate, hc]
    · rw [if_neg h2]

theorem growRows_getD_length (cols : ℕ)
    (rows : List (List (Option Cell))) (n : ℕ)
    (hacc : ∀ row ∈ rows, row.length = cols) (r : ℕ)
    (hr : r < (growRows cols rows n).length) :
    ((growRows cols rows n).getD r []).length = cols := by
  rw [List.getD_eq_getElem?_getD, List.getElem?_eq_getElem hr,
    Option.getD_some]
  exact growRows_forall_length cols rows n hacc _ (List.getElem_mem hr)

theorem placeCell_length (cols : ℕ) (rows : List (List (Option Cell)))
    (x : Cell) :
    (placeCell cols rows x).length = max rows.length (x.row_index + 1) := by
  simp only [placeCell]
  split
  · rw [List.length_set, growRows_length]
  · rw [growRows_length]

theorem placeCell_forall_length (cols : ℕ)
    (rows : List (List (Option Cell))) (x : Cell)
    (hacc : ∀ row ∈ rows, row.length = cols) :
    ∀ row ∈ placeCell cols rows x, row.length = cols := by
  have hgrown := growRows_forall_length cols rows (x.row_index + 1) hacc
  simp only [placeCell]
  split
  · intro row hrow
    rcases List.mem_or_eq_of_mem_set hrow with h | h
    · exact hgrown row h
    · subst h
      rw [List.length_set]
      exact growRows_getD_length cols rows (x.row_index + 1) hacc _
        (by rw [growRows_length]; omega)
  · exact hgrown

theorem placeCell_gridGet_self (cols : ℕ)
    (rows : List (List (Option Cell))) (x : Cell)
    (hacc : ∀ row ∈ rows, row.length = cols) (hc : x.column_index < cols) :
    gridGet (placeCell cols rows x) x.row_index x.column_index = some x := by
  have hr : x.row_index < (growRows cols rows (x.row_index + 1)).length := by
    rw [growRows_length]; omega
  have hrowlen :=
    growRows_getD_length cols rows (x.row_index + 1) hacc x.row_index hr
  simp only [placeCell]
  rw [if_pos (by rw [hrowlen]; exact hc)]
  unfold gridGet
  rw [List.getElem?_set_self (by simpa using hr), Option.getD_some,
    List.getElem?_set_self (by rw [hrowlen]; exact hc), Option.getD_some]

theorem placeCell_gridGet_other (cols : ℕ)
    (rows : List (List (Option Cell))) (x : Cell) (r c : ℕ)
    (hne : ¬(r = x.row_index ∧ c = x.column_index)) :
    gridGet (placeCell cols rows x) r c = gridGet rows r c := by
  rw [← gridGet_growRows cols rows (x.row_index + 1) r c]
  simp only [placeCell]
  split
  · unfold gridGet
    by_cases hr : r = x.row_index
    · subst hr
      have hc : c ≠ x.column_index := fun h => hne ⟨rfl, h⟩
      have hlt : x.row_index <
          (growRows cols rows (x.row_index + 1)).length := by
        rw [growRows_length]; omega
      rw [List.getElem?_set_self (by simpa using hlt), Option.getD_some,
        List.getElem?_set_ne (fun h => hc h.symm),
        List.getD_eq_getElem?_getD]
    · rw [List.getElem?_set_ne (fun h => hr h.symm)]
  · rfl

theorem buildRows_foldl_length (cols : ℕ) (cells : List Cell) :
    ∀ acc : List (List (Option Cell)),
      (cells.foldl (placeCell cols) acc).length =
        cells.foldl (fun m x => max m (x.row_index + 1)) acc.length := by
  induction cells with
  | nil => intro acc; rfl
  | cons x rest ih =>
    intro acc
    rw [List.foldl_cons, List.foldl_cons, ih, placeCell_length]

theorem buildRows_foldl_forall_length (cols : ℕ) (cells : List Cell) :
    ∀ acc : List (List (Option Cell)),
      (∀ row ∈ acc, row.length = cols) →
      ∀ row ∈ cells.foldl (placeCell cols) acc, row.length = cols := by
  induction cells with
  | nil => intro acc hacc; exact hacc
  | cons x rest ih =>
    intro acc hacc
    exact ih _ (placeCell_forall_length cols acc x hacc)

theorem buildRows_foldl_gridGet (cols : ℕ) (cells : List Cell) :
    ∀ acc : List (List (Option Cell)),
      (∀ row ∈ acc, row.length = cols) → ∀ r c : ℕ, c < cols →
      gridGet (cells.foldl (placeCell cols) acc) r c =
        (gridCellAt cells r c).or (gridGet acc r c) := by
  induction cells with
  | nil =>
    intro acc hacc r c hc
    simp [gridCellAt]
  | cons x rest ih =>
    intro acc hacc r c hc
    rw [List.foldl_cons, ih _ (placeCell_forall_length cols acc x hacc) r c hc]
    have hAt : gridCellAt (x :: rest) r c =
        (gridCellAt rest r c).or
          (if x.row_index == r && x.column_index == c then some x
            else none) := by
      unfold gridCellAt
      rw [List.reverse_cons, List.find?_append]
      congr 1
      cases h : (x.row_index == r && x.column_index == c) <;>
        simp [List.find?, h]
    rw [hAt, Option.or_assoc]
    congr 1
    by_cases hm : x.row_index = r ∧ x.column_index = c
    · rw [if_pos (by simp [hm.1, hm.2])]
      obtain ⟨h1, h2⟩ := hm
      subst h1
      subst h2
      rw [placeCell_gridGet_self cols acc x hacc hc]
      rfl
    · rw [if_neg (by
        simp only [Bool.and_eq_true, beq_iff_eq]
        exact fun h => hm ⟨h.1, h.2⟩)]
      rw [placeCell_gridGet_other cols acc x r c
        (fun h => hm ⟨h.1.symm, h.2.symm⟩)]
      rfl

/-- C6 (amended): `_table_to_html` emits `<table border="1" id="{id}"><tbody>`,
then one `<tr>` per row index from `0` to `R - 1` where `R` is one more
than the largest cell `row_index` (`0` when there are no cells; the
table's `rows` field is ignored); within each row, the position at each
column index below `columns` renders the last cell placed at that
`(row_index, column_index)` — `<th>` for `columnHeader` and `<td>`
otherwise, `colspan`/`rowspan` only when the span exceeds `1`, content
HTML-escaped — and `<td></td>` when no cell occupies the position. -/
theorem table_to_html_amended (t : Table) :
    tableToHtml t = tableToHtmlSpec t := by
  have hor : ∀ o : Option Cell, o.or none = o := fun o => by cases o <;> rfl
  have hlen : (buildRows (t.columns.getD 0) t.cells).length =
      tableRowsCount t.cells := by
    rw [buildRows, buildRows_foldl_length]
    rfl
  have hrowlen : ∀ row ∈ buildRows (t.columns.getD 0) t.cells,
      row.length = t.columns.getD 0 :=
    buildRows_foldl_forall_length (t.columns.getD 0) t.cells [] (by simp)
  have hmain : (buildRows (t.columns.getD 0) t.cells).map rowHtml =
      (List.range (tableRowsCount t.cells)).map fun r =>
        "<tr>" ++ String.join ((List.range (t.columns.getD 0)).map fun c =>
          match gridCellAt t.cells r c with
          | none => "<td></td>"
          | some cell => cellHtml cell) ++ "</tr>" := by
    apply List.ext_getElem
    · simp [hlen]
    · intro i h1 h2
      rw [List.getElem_map, List.getElem_map, List.getElem_range]
      have hi : i < (buildRows (t.columns.getD 0) t.cells).length := by
        simpa using h1
      have hrl : (buildRows (t.columns.getD 0) t.cells)[i].length =
          t.columns.getD 0 :=
        hrowlen _ (List.getElem_mem hi)
      have hrow : (buildRows (t.columns.getD 0) t.cells)[i].map
          (fun oc => match oc with
            | none => "<td></td>"
            | some cell => cellHtml cell) =
          (List.range (t.columns.getD 0)).map fun c =>
            match gridCellAt t.cells i c with
            | none => "<td></td>"
            | some cell => cellHtml cell := by
        apply List.ext_getElem
        · simp [hrl]
        · intro c hc1 hc2
          rw [List.getElem_map, List.getElem_map, List.getElem_range]
          have hcc : c < t.columns.getD 0 := by
            rw [← hrl]
            simpa using hc1
          have hcell : (buildRows (t.columns.getD 0) t.cells)[i][c] =
              gridCellAt t.cells i c := by
            have hgg := buildRows_foldl_gridGet (t.columns.getD 0) t.cells []
              (by simp) i c hcc
            rw [show gridGet [] i c = none from rfl, hor] at hgg
            rw [← hgg]
            show (buildRows (t.columns.getD 0) t.cells)[i][c] =
              ((buildRows (t.columns.getD 0) t.cells)[i]?.getD [])[c]?.getD
                none
            rw [List.getElem?_eq_getElem hi, Option.getD_some,
              List.getElem?_eq_getElem (by rw [hrl]; exact hcc),
              Option.getD_some]
          rw [hcell]
      unfold rowHtml
      rw [hrow]
  unfold tableToHtml tableToHtmlSpec
  rw [hmain]
